import Mathlib

/-!
Verification of the dual-stream column video mixer (src/main.py).

The program is a Qt application with three threads of control: two
`VideoDecoder` producers that read frames from a video file and push them
into bounded queues, and one `MixingThread` consumer that pops a frame from
each queue, interleaves their pixel columns and emits the composite.

This file shallowly embeds the core as pure Lean functions:
  * a decoded frame (a numpy `height x width x channels` array) is a
    rectangular nested list of channel values;
  * `MixingThread.mix_columns` (src/main.py lines 75-78) becomes a pure
    column interleave, plus an explicit buffer-store model that tracks
    numpy aliasing (`.copy()` allocates a fresh buffer);
  * the bounded handoff queues (`Queue(maxsize=10)` with `put_nowait`
    guarded by `except Full: pass`, src/main.py lines 90-92 and 161-165)
    become a drop-newest bounded list;
  * `MixingThread.run` (lines 55-68) becomes a state-transformer on the
    pair of queues, iterated with fuel and a per-iteration running flag;
  * `VideoDecoder.run` (lines 21-36) becomes a position-indexed loop over
    the list of the stream's frames, again iterated with fuel, and its
    frame pacing (`time.sleep(1/fps)`) is modelled separately as an exact
    timeline of emission instants.
-/

namespace ColumnMixer

/-- One pixel: the list of its channel values (BGR channel order at decode
time, as produced by `cv2.VideoCapture.read`). -/
abbrev Px := List Nat

/-- One decoded frame: the rows of the numpy `height x width x channels`
array, each row a list of pixels. -/
abbrev Frame := List (List Px)

namespace Frame

/-- Height: component 0 of the numpy `shape` tuple. -/
def height (f : Frame) : Nat := f.length

/-- Width: component 1 of the numpy `shape` tuple (the length of the first
row; every row of a rectangular array has this length). -/
def width (f : Frame) : Nat := (f.headD []).length

/-- Channel count: component 2 of the numpy `shape` tuple (the length of
the first pixel of the first row). -/
def channels (f : Frame) : Nat := ((f.headD []).headD []).length

/-- The numpy `shape` tuple `(h, w, ch)`, the value compared by
`f1.shape != f2.shape` in `MixingThread.run` (src/main.py line 60). -/
def shape (f : Frame) : Nat × Nat × Nat := (f.height, f.width, f.channels)

/-- Rectangularity invariant of every numpy array: all rows have the
frame's width and all pixels have the frame's channel count. -/
def rect (f : Frame) : Prop :=
  ∀ r ∈ f, r.length = f.width ∧ ∀ p ∈ r, p.length = f.channels

instance (f : Frame) : Decidable f.rect := by
  unfold rect; infer_instance

/-- The channel value at row `i`, column `j`, channel `k` (defaulting to 0
outside the array bounds). -/
def pix (f : Frame) (i j k : Nat) : Nat :=
  ((f.getD i []).getD j []).getD k 0

end Frame

/-- Helper for `mix_columns`: builds one result row pixel by pixel, where
`j` is the absolute column index of the head pixel.  An even-indexed
column takes the second stream's pixel, an odd-indexed column keeps the
first stream's pixel — the row-wise meaning of the numpy slice assignment
`result[:, ::2] = f2[:, ::2]` (src/main.py line 77) on equal-shape
operands. -/
def mixRowFrom : Nat → List Px → List Px → List Px
  | _, [], _ => []
  | _, a :: as, [] => a :: as
  | j, a :: as, b :: bs => (if j % 2 = 0 then b else a) :: mixRowFrom (j + 1) as bs

/-- One composite row: columns counted from index 0. -/
def mixRow (r1 r2 : List Px) : List Px := mixRowFrom 0 r1 r2

/-- `MixingThread.mix_columns` (src/main.py lines 75-78): start from a copy
of `f1` and overwrite every even-indexed column with `f2`'s values
(`result = f1.copy(); result[:, ::2] = f2[:, ::2]`).  The caller only
invokes it on frames of identical shape. -/
def mix_columns (f1 f2 : Frame) : Frame := List.zipWith mixRow f1 f2

theorem length_mixRowFrom (n : Nat) (r1 r2 : List Px) :
    (mixRowFrom n r1 r2).length = r1.length := by
  induction r1 generalizing n r2 with
  | nil => rfl
  | cons a as ih =>
    cases r2 with
    | nil => rfl
    | cons b bs => simp [mixRowFrom, ih]

theorem getElem?_mixRowFrom (n j : Nat) (r1 r2 : List Px)
    (h1 : j < r1.length) (h2 : j < r2.length) :
    (mixRowFrom n r1 r2)[j]? =
      if (n + j) % 2 = 0 then r2[j]? else r1[j]? := by
  induction r1 generalizing n j r2 with
  | nil => simp at h1
  | cons a as ih =>
    cases r2 with
    | nil => simp at h2
    | cons b bs =>
      cases j with
      | zero => by_cases hn : n % 2 = 0 <;> simp [mixRowFrom, hn]
      | succ j' =>
        have h1' : j' < as.length := by simpa using h1
        have h2' : j' < bs.length := by simpa using h2
        have harith : n + (j' + 1) = (n + 1) + j' := by omega
        simp [mixRowFrom, ih (n + 1) j' bs h1' h2', harith]

theorem getElem?_mixRow (j : Nat) (r1 r2 : List Px)
    (h1 : j < r1.length) (h2 : j < r2.length) :
    (mixRow r1 r2)[j]? = if j % 2 = 0 then r2[j]? else r1[j]? := by
  simpa [mixRow] using getElem?_mixRowFrom 0 j r1 r2 h1 h2

theorem getElem?_zipWith_of_getElem? {α β γ : Type} (f : α → β → γ)
    (l1 : List α) (l2 : List β) (i : Nat) (a : α) (b : β)
    (h1 : l1[i]? = some a) (h2 : l2[i]? = some b) :
    (List.zipWith f l1 l2)[i]? = some (f a b) := by
  induction l1 generalizing l2 i with
  | nil => simp at h1
  | cons x xs ih =>
    cases l2 with
    | nil => simp at h2
    | cons y ys =>
      cases i with
      | zero =>
        simp only [List.getElem?_cons_zero, Option.some.injEq] at h1 h2
        simp [h1, h2]
      | succ i' =>
        simp only [List.getElem?_cons_succ] at h1 h2
        simpa using ih ys i' h1 h2

theorem getD_eq_of_getElem? {α : Type} {l : List α} {n : Nat} {a d : α}
    (h : l[n]? = some a) : l.getD n d = a := by
  simp [List.getD_eq_getElem?_getD, h]

theorem mix_columns_shape (f1 f2 : Frame) (h : f1.shape = f2.shape) :
    (mix_columns f1 f2).shape = f1.shape := by
  simp only [Frame.shape, Prod.mk.injEq, Frame.height, Frame.width, Frame.channels] at h ⊢
  obtain ⟨hh, hw, hc⟩ := h
  cases f1 with
  | nil => simp [mix_columns]
  | cons r1 f1t =>
    cases f2 with
    | nil => simp at hh
    | cons r2 f2t =>
      simp only [List.length_cons] at hh
      refine ⟨?_, ?_, ?_⟩
      · simp only [mix_columns, List.length_zipWith, List.length_cons]
        omega
      · simp [mix_columns, mixRow, length_mixRowFrom]
      · cases r1 with
        | nil => simp [mix_columns, mixRow, mixRowFrom]
        | cons a as =>
          cases r2 with
          | nil => simp [mix_columns, mixRow, mixRowFrom]
          | cons b bs =>
            simp only [List.headD_cons] at hc
            simp [mix_columns, mixRow, mixRowFrom, hc]

/-- Claim C1: for frames of identical shape, the composite returned by
`MixingThread.mix_columns` equals `f2` (stream B) at every even-indexed
column and `f1` (stream A) at every odd-indexed column, at every row and
channel in range, and has the same dimensions as the inputs. -/
theorem c1_mix_columns_even_odd (f1 f2 : Frame)
    (hsh : f1.shape = f2.shape) (hrect1 : f1.rect) (hrect2 : f2.rect)
    (i j k : Nat) (hi : i < f1.height) (hj : j < f1.width) (hk : k < f1.channels) :
    (mix_columns f1 f2).shape = f1.shape ∧
    (mix_columns f1 f2).pix i j k =
      if j % 2 = 0 then f2.pix i j k else f1.pix i j k := by
  refine ⟨mix_columns_shape f1 f2 hsh, ?_⟩
  have hcomp := hsh
  simp only [Frame.shape, Prod.mk.injEq] at hcomp
  obtain ⟨hh, hw, -⟩ := hcomp
  have hi1 : i < f1.length := hi
  have hi2 : i < f2.length := by
    have hlen : f1.length = f2.length := hh
    omega
  obtain ⟨hw1, -⟩ := hrect1 _ (List.getElem_mem hi1)
  obtain ⟨hw2, -⟩ := hrect2 _ (List.getElem_mem hi2)
  have hj1 : j < (f1[i] : List Px).length := by rw [hw1]; exact hj
  have hj2 : j < (f2[i] : List Px).length := by
    rw [hw2]
    have hwid : f1.width = f2.width := hw
    omega
  have hz : (mix_columns f1 f2)[i]? = some (mixRow f1[i] f2[i]) :=
    getElem?_zipWith_of_getElem? mixRow f1 f2 i _ _
      (List.getElem?_eq_getElem hi1) (List.getElem?_eq_getElem hi2)
  have hrow := getElem?_mixRow j (f1[i]) (f2[i]) hj1 hj2
  unfold Frame.pix
  rw [getD_eq_of_getElem? hz,
      getD_eq_of_getElem? (List.getElem?_eq_getElem hi1),
      getD_eq_of_getElem? (List.getElem?_eq_getElem hi2)]
  by_cases hpar : j % 2 = 0
  · rw [if_pos hpar] at hrow ⊢
    rw [getD_eq_of_getElem? (hrow.trans (List.getElem?_eq_getElem hj2)),
        getD_eq_of_getElem? (List.getElem?_eq_getElem hj2)]
  · rw [if_neg hpar] at hrow ⊢
    rw [getD_eq_of_getElem? (hrow.trans (List.getElem?_eq_getElem hj1)),
        getD_eq_of_getElem? (List.getElem?_eq_getElem hj1)]

/-- A 2 x 3 x 1 test frame for stream A. -/
def frA : Frame := [[[1], [2], [3]], [[4], [5], [6]]]

/-- A 2 x 3 x 1 test frame for stream B. -/
def frB : Frame := [[[10], [20], [30]], [[40], [50], [60]]]

theorem c1_witness :
    (mix_columns frA frB).shape = frA.shape ∧
    (mix_columns frA frB).pix 0 2 0 =
      if 2 % 2 = 0 then frB.pix 0 2 0 else frA.pix 0 2 0 :=
  c1_mix_columns_even_odd frA frB (by decide) (by decide) (by decide)
    0 2 0 (by decide) (by decide) (by decide)

/-- A store of numpy buffers, indexed by allocation order.  It makes the
aliasing behaviour of `mix_columns` explicit: `f1.copy()` allocates a
fresh buffer and the slice assignment `result[:, ::2] = f2[:, ::2]`
mutates only that fresh buffer. -/
structure Store where
  bufs : List Frame

/-- The contents of buffer `i`. -/
def Store.read (s : Store) (i : Nat) : Frame := s.bufs.getD i []

/-- In-place mutation of buffer `i`. -/
def Store.write (s : Store) (i : Nat) (f : Frame) : Store := ⟨s.bufs.set i f⟩

/-- Allocation of a fresh buffer holding `f`; returns the new store and the
fresh buffer's id. -/
def Store.alloc (s : Store) (f : Frame) : Store × Nat :=
  (⟨s.bufs ++ [f]⟩, s.bufs.length)

/-- `MixingThread.mix_columns` (src/main.py lines 75-78) as it acts on
numpy buffers: `result = f1.copy()` allocates a fresh buffer with `f1`'s
contents, then `result[:, ::2] = f2[:, ::2]` overwrites that buffer in
place with the column interleave.  Returns the final store and the id of
the result buffer. -/
def mix_columns_buffers (s : Store) (i1 i2 : Nat) : Store × Nat :=
  let a := s.alloc (s.read i1)
  (a.1.write a.2 (mix_columns (a.1.read a.2) (a.1.read i2)), a.2)

theorem getD_append_lt {α : Type} (l l2 : List α) (i : Nat) (h : i < l.length) (d : α) :
    (l ++ l2).getD i d = l.getD i d := by
  simp [List.getD_eq_getElem?_getD, List.getElem?_append, h]

theorem getD_append_self {α : Type} (l : List α) (x d : α) :
    (l ++ [x]).getD l.length d = x := by
  simp [List.getD_eq_getElem?_getD, List.getElem?_append]

theorem set_append_last {α : Type} (l : List α) (a b : α) :
    (l ++ [a]).set l.length b = l ++ [b] := by
  rw [List.set_append_right]
  · simp
  · omega

theorem getD_set_ne {α : Type} (l : List α) (i j : Nat) (a d : α) (h : i ≠ j) :
    (l.set j a).getD i d = l.getD i d := by
  simp [List.getD_eq_getElem?_getD, List.getElem?_set, h, Ne.symm h]

theorem mix_columns_buffers_eq (s : Store) (i1 i2 : Nat) (h2 : i2 < s.bufs.length) :
    mix_columns_buffers s i1 i2 =
      (⟨s.bufs ++ [mix_columns (s.read i1) (s.read i2)]⟩, s.bufs.length) := by
  show ((Store.mk ((s.bufs ++ [s.read i1]).set s.bufs.length
      (mix_columns ((s.bufs ++ [s.read i1]).getD s.bufs.length [])
        ((s.bufs ++ [s.read i1]).getD i2 [])))), s.bufs.length) = _
  rw [getD_append_self, getD_append_lt _ _ _ h2, set_append_last]
  rfl

/-- Claim C9: computing the column mix leaves both input buffers
unmodified — the result lives in a fresh buffer (distinct from both input
ids) holding the column interleave, while the buffers of `f1` and `f2`
still hold exactly their old contents. -/
theorem c9_mix_columns_inputs_unmodified (s : Store) (i1 i2 : Nat)
    (h1 : i1 < s.bufs.length) (h2 : i2 < s.bufs.length) :
    (mix_columns_buffers s i1 i2).1.read i1 = s.read i1 ∧
    (mix_columns_buffers s i1 i2).1.read i2 = s.read i2 ∧
    (mix_columns_buffers s i1 i2).2 ≠ i1 ∧
    (mix_columns_buffers s i1 i2).2 ≠ i2 ∧
    (mix_columns_buffers s i1 i2).1.read (mix_columns_buffers s i1 i2).2 =
      mix_columns (s.read i1) (s.read i2) := by
  rw [mix_columns_buffers_eq s i1 i2 h2]
  refine ⟨?_, ?_, by simp; omega, by simp; omega, ?_⟩
  · exact getD_append_lt _ _ _ h1 _
  · exact getD_append_lt _ _ _ h2 _
  · exact getD_append_self _ _ _

theorem c9_witness :
    ((mix_columns_buffers ⟨[frA, frB]⟩ 0 1).1.read 0 = (Store.mk [frA, frB]).read 0 ∧
     (mix_columns_buffers ⟨[frA, frB]⟩ 0 1).1.read 1 = (Store.mk [frA, frB]).read 1 ∧
     (mix_columns_buffers ⟨[frA, frB]⟩ 0 1).2 ≠ 0 ∧
     (mix_columns_buffers ⟨[frA, frB]⟩ 0 1).2 ≠ 1 ∧
     (mix_columns_buffers ⟨[frA, frB]⟩ 0 1).1.read (mix_columns_buffers ⟨[frA, frB]⟩ 0 1).2 =
       mix_columns ((Store.mk [frA, frB]).read 0) ((Store.mk [frA, frB]).read 1)) :=
  c9_mix_columns_inputs_unmodified ⟨[frA, frB]⟩ 0 1 (by decide) (by decide)

/-- Capacity of each handoff queue: `Queue(maxsize=10)` in
`MainWindow.init` (src/main.py lines 91-92). -/
def queue_maxsize : Nat := 10

/-- `MainWindow.safe_put` (src/main.py lines 161-165): `put_nowait` raises
`Full` when the queue already holds `maxsize` items and the handler drops
the incoming frame (`except Full: pass`); otherwise the frame is appended
at the tail.  The producer never blocks. -/
def safe_put {α : Type} (q : List α) (f : α) : List α :=
  if queue_maxsize ≤ q.length then q else q ++ [f]

/-- `n` successive pops (`Queue.get`) from the FIFO queue: the popped
items in pop order, and the remaining queue. -/
def popN {α : Type} : Nat → List α → List α × List α
  | 0, q => ([], q)
  | _ + 1, [] => ([], [])
  | n + 1, f :: r =>
    let p := popN n r
    (f :: p.1, p.2)

theorem foldl_safe_put {α : Type} (xs q : List α) (h : q.length ≤ queue_maxsize) :
    List.foldl safe_put q xs = q ++ xs.take (queue_maxsize - q.length) := by
  induction xs generalizing q with
  | nil => simp
  | cons x xs ih =>
    by_cases hq : queue_maxsize ≤ q.length
    · have hql : q.length = queue_maxsize := le_antisymm h hq
      rw [List.foldl_cons, show safe_put q x = q from by simp [safe_put, hq], ih q h]
      simp [hql]
    · push_neg at hq
      rw [List.foldl_cons,
        show safe_put q x = q ++ [x] from by simp [safe_put]; omega,
        ih (q ++ [x]) (by simp; omega)]
      have hsub : queue_maxsize - q.length = (queue_maxsize - (q.length + 1)) + 1 := by
        omega
      simp [hsub, List.append_assoc]

theorem popN_eq_take_drop {α : Type} (n : Nat) (q : List α) (h : n ≤ q.length) :
    popN n q = (q.take n, q.drop n) := by
  induction n generalizing q with
  | zero => simp [popN]
  | succ n ih =>
    cases q with
    | nil => simp at h
    | cons f r =>
      have h2 : n ≤ r.length := by simpa using h
      simp [popN, ih r h2]

/-- Claim C4: a push onto a full capacity-10 channel never blocks and
silently drops the newly pushed frame, leaving the 10 buffered frames
unchanged; pushing 12 frames into an empty channel and then popping 10
times yields exactly the first 10 pushed frames in push (FIFO) order, and
the channel is left empty, so frames 11 and 12 are never delivered. -/
theorem c4_channel_drops_newest {α : Type} (q : List α) (hq : q.length = queue_maxsize)
    (f : α) (xs : List α) (hxs : xs.length = 12) :
    safe_put q f = q ∧
    (popN 10 (List.foldl safe_put [] xs)).1 = xs.take 10 ∧
    (popN 10 (List.foldl safe_put [] xs)).2 = [] := by
  have hfold : List.foldl safe_put [] xs = xs.take 10 := by
    simpa [queue_maxsize] using foldl_safe_put xs [] (by simp)
  have hlen : (xs.take 10).length = 10 := by simp [hxs]
  refine ⟨by simp [safe_put, hq], ?_, ?_⟩
  · rw [hfold, popN_eq_take_drop 10 _ (by omega)]
    simp [List.take_take]
  · rw [hfold, popN_eq_take_drop 10 _ (by omega)]
    simp [List.drop_eq_nil_of_le, hlen]

theorem c4_witness :
    safe_put (List.range 10) 99 = List.range 10 ∧
    (popN 10 (List.foldl safe_put [] (List.range 12))).1 = (List.range 12).take 10 ∧
    (popN 10 (List.foldl safe_put [] (List.range 12))).2 = [] :=
  c4_channel_drops_newest (List.range 10) (by decide) 99 (List.range 12) (by decide)

/-- The conversion `cv2.cvtColor(mixed, cv2.COLOR_BGR2RGB)` (src/main.py
line 64): reverses the channel order of every pixel (BGR to RGB). -/
def cvtBGR2RGB (f : Frame) : Frame := f.map (fun r => r.map List.reverse)

/-- The mixer's view of the two handoff channels. -/
structure MixState where
  q1 : List Frame
  q2 : List Frame

/-- The timeout (in seconds) passed to both `Queue.get` calls in
`MixingThread.run` (src/main.py lines 58-59). -/
def pop_timeout : Nat := 1

/-- `Queue.get(timeout=...)`: pops the oldest frame, or raises `Empty`
(modelled as `none`) when no frame arrives within the timeout — in this
state model, when the queue is empty. -/
def q_get (q : List Frame) (timeout : Nat) : Option Frame × List Frame :=
  match q, timeout with
  | [], _ => (none, [])
  | f :: r, _ => (some f, r)

/-- One pass through the loop body of `MixingThread.run` (src/main.py
lines 56-68): pop from channel 1, then from channel 2 (the second pop is
not attempted when the first raises `Empty`); skip the pair if the shapes
differ; otherwise emit the colour-converted column mix.  Returns the new
channel state and the emitted frame, if any. -/
def run_iter (s : MixState) : MixState × Option Frame :=
  match q_get s.q1 pop_timeout with
  | (none, _) => (s, none)
  | (some f1, r1) =>
    match q_get s.q2 pop_timeout with
    | (none, _) => (⟨r1, s.q2⟩, none)
    | (some f2, r2) =>
      if f1.shape ≠ f2.shape then (⟨r1, r2⟩, none)
      else (⟨r1, r2⟩, some (cvtBGR2RGB (mix_columns f1 f2)))

/-- `MixingThread.run` (src/main.py lines 55-68): `while self.running:`.
`running n` is the value of the cooperative flag as read at the n-th
remaining iteration, and `fuel` bounds how many iterations are observed.
Returns the emitted composite frames in emission order. -/
def mixer_run : Nat → (Nat → Bool) → MixState → List Frame
  | 0, _, _ => []
  | fuel + 1, running, s =>
    if running 0 then
      let p := run_iter s
      p.2.toList ++ mixer_run fuel (fun n => running (n + 1)) p.1
    else []

/-- Claim C5: when the two popped frames have different shapes the mixer
emits nothing for that pair, surfaces no error, consumes both frames, and
proceeds to the next iteration, where a matching pair is again processed
normally. -/
theorem c5_shape_mismatch_silent_skip (f1 f2 g1 g2 : Frame) (t1 t2 : List Frame)
    (hne : f1.shape ≠ f2.shape) (hsh : g1.shape = g2.shape) :
    (run_iter ⟨f1 :: g1 :: t1, f2 :: g2 :: t2⟩).2 = none ∧
    (run_iter ⟨f1 :: g1 :: t1, f2 :: g2 :: t2⟩).1 = ⟨g1 :: t1, g2 :: t2⟩ ∧
    (run_iter (run_iter ⟨f1 :: g1 :: t1, f2 :: g2 :: t2⟩).1).2 =
      some (cvtBGR2RGB (mix_columns g1 g2)) := by
  have hstep : run_iter ⟨f1 :: g1 :: t1, f2 :: g2 :: t2⟩ =
      (⟨g1 :: t1, g2 :: t2⟩, none) := by
    simp [run_iter, q_get, hne]
  refine ⟨by rw [hstep], by rw [hstep], ?_⟩
  rw [hstep]
  simp [run_iter, q_get, hsh]

/-- A 1 x 1 x 1 test frame, shape-incompatible with `frA`. -/
def frSmall : Frame := [[[7]]]

theorem c5_witness :
    (run_iter ⟨frSmall :: frA :: [], frA :: frB :: []⟩).2 = none ∧
    (run_iter ⟨frSmall :: frA :: [], frA :: frB :: []⟩).1 = ⟨frA :: [], frB :: []⟩ ∧
    (run_iter (run_iter ⟨frSmall :: frA :: [], frA :: frB :: []⟩).1).2 =
      some (cvtBGR2RGB (mix_columns frA frB)) :=
  c5_shape_mismatch_silent_skip frSmall frA frA frB [] [] (by decide) (by decide)

/-- Claim C6: both pops use a 1-second timeout; whenever either pop times
out, that iteration emits no composite (in particular never a partial
one) and the loop retries, re-checking the running flag at the next
iteration; the iteration itself always terminates. -/
theorem c6_timeout_retries (s : MixState) (running : Nat → Bool) (fuel : Nat)
    (hempty : s.q1 = [] ∨ s.q2 = []) (hrun : running 0 = true) :
    pop_timeout = 1 ∧
    (run_iter s).2 = none ∧
    mixer_run (fuel + 1) running s =
      mixer_run fuel (fun n => running (n + 1)) (run_iter s).1 := by
  have hnone : (run_iter s).2 = none := by
    obtain ⟨q1, q2⟩ := s
    rcases hempty with h | h <;> subst h
    · simp [run_iter, q_get]
    · cases q1 <;> simp [run_iter, q_get]
  exact ⟨rfl, hnone, by simp [mixer_run, hrun, hnone]⟩

theorem c6_witness :
    pop_timeout = 1 ∧
    (run_iter ⟨frA :: [], []⟩).2 = none ∧
    mixer_run 3 (fun _ => true) ⟨frA :: [], []⟩ =
      mixer_run 2 (fun n => (fun _ => true) (n + 1)) (run_iter ⟨frA :: [], []⟩).1 :=
  c6_timeout_retries ⟨frA :: [], []⟩ (fun _ => true) 2 (Or.inr rfl) rfl

/-- The cooperative cancellation flag of a worker thread; `stop`
(src/main.py lines 38-41 and 70-73) clears it before joining. -/
structure ThreadCtl where
  running : Bool

/-- `MixingThread.stop` / `VideoDecoder.stop`: set `self.running = False`
(the `quit`/`wait` join is what makes the caller observe the loop's
exit). -/
def ThreadCtl.stop (t : ThreadCtl) : ThreadCtl := ⟨false⟩

/-- Claim C7: `stop()` clears the running flag, and once the flag reads
false the mixer loop emits no further composite frames — regardless of
how many frames are still buffered in the channels — so after the join
returns the caller observes full quiescence. -/
theorem c7_stop_quiesces (t : ThreadCtl) (fuel : Nat) (s : MixState)
    (running : Nat → Bool) (hstopped : ∀ n, running n = false) :
    t.stop.running = false ∧ mixer_run fuel running s = [] := by
  refine ⟨rfl, ?_⟩
  cases fuel with
  | zero => rfl
  | succ n => simp [mixer_run, hstopped 0]

theorem c7_witness :
    (ThreadCtl.stop ⟨true⟩).running = false ∧
    mixer_run 5 (fun _ => false) ⟨frA :: [], frB :: []⟩ = [] :=
  c7_stop_quiesces ⟨true⟩ 5 ⟨frA :: [], frB :: []⟩ (fun _ => false) (fun _ => rfl)

/-- Claim C10: when the pop from channel 1 succeeds but the pop from
channel 2 times out, the frame popped from channel 1 is consumed and
lost: the iteration emits nothing, the frame is removed from the state,
and the remainder of the run is fully determined by the remaining state,
in which that frame no longer occurs. -/
theorem c10_b_timeout_discards_a_frame (f1 : Frame) (r1 : List Frame)
    (running : Nat → Bool) (fuel : Nat) (hrun : running 0 = true) :
    run_iter ⟨f1 :: r1, []⟩ = (⟨r1, []⟩, none) ∧
    mixer_run (fuel + 1) running ⟨f1 :: r1, []⟩ =
      mixer_run fuel (fun n => running (n + 1)) ⟨r1, []⟩ := by
  have hstep : run_iter ⟨f1 :: r1, []⟩ = (⟨r1, []⟩, none) := by
    simp [run_iter, q_get]
  exact ⟨hstep, by simp [mixer_run, hrun, hstep]⟩

theorem c10_witness :
    run_iter ⟨frA :: [], []⟩ = (⟨[], []⟩, none) ∧
    mixer_run 4 (fun _ => true) ⟨frA :: [], []⟩ =
      mixer_run 3 (fun n => (fun _ => true) (n + 1)) ⟨[], []⟩ :=
  c10_b_timeout_discards_a_frame frA [] (fun _ => true) 3 rfl

/-- `cap.read()` on a stream whose frames are `frames` with current read
position `pos`: returns the frame at the position and advances, or fails
(`ret = False`) at end of stream, leaving the position unchanged. -/
def cap_read {α : Type} (frames : List α) (pos : Nat) : Option α × Nat :=
  match frames[pos]? with
  | some f => (some f, pos + 1)
  | none => (none, pos)

/-- The main loop of `VideoDecoder.run` (src/main.py lines 25-35), with
the running flag held true and every reopen succeeding, observed for
`fuel` iterations from read position `pos`.  On a failed read the code
resets the position (`cap.set(CAP_PROP_POS_FRAMES, 0)`; `cap.open(path)`)
and performs one more read whose result the `continue` then discards,
so only the new position of that read survives into the next iteration.
Returns the frames emitted via `frame_ready` in emission order. -/
def decoder_run {α : Type} (frames : List α) : Nat → Nat → List α
  | 0, _ => []
  | fuel + 1, pos =>
    match cap_read frames pos with
    | (some f, pos2) => f :: decoder_run frames fuel pos2
    | (none, _) => decoder_run frames fuel (cap_read frames 0).2

/-- Claim C2 counterexample: a two-frame stream read to end of stream
does not resume emitting from the first frame — the read issued right
after the reopen is discarded by the `continue`, so the first frame
emitted after the restart is the stream's second frame. -/
theorem c2_counterexample :
    (decoder_run ([0, 1] : List Nat) 2 2).head? ≠ some 0 ∧
    (decoder_run ([0, 1] : List Nat) 2 2).head? = some 1 := by decide

/-- Claim C2 amended: on end-of-stream (or read failure) the source seeks
back to the start and reopens, but the read performed right after the
reopen is discarded by the `continue`, so the loop goes on (it never
returns) with the stream repositioned at index 1 and the next emitted
frame is the stream's second frame, not its first. -/
theorem c2_restart_skips_first_frame {α : Type} (frames : List α)
    (pos fuel : Nat) (f1 : α) (hpos : frames.length ≤ pos)
    (hf1 : frames[1]? = some f1) :
    decoder_run frames (fuel + 1) pos = decoder_run frames fuel 1 ∧
    (decoder_run frames (fuel + 2) pos).head? = some f1 := by
  have hlen : 1 < frames.length := by
    rcases List.getElem?_eq_some.mp hf1 with ⟨hh, -⟩
    exact hh
  have hread : cap_read frames pos = (none, pos) := by
    simp [cap_read, List.getElem?_eq_none hpos]
  have hread0 : cap_read frames 0 = (some frames[0], 1) := by
    simp [cap_read, List.getElem?_eq_getElem (show 0 < frames.length by omega)]
  have hstep : ∀ fl, decoder_run frames (fl + 1) pos = decoder_run frames fl 1 := by
    intro fl
    simp [decoder_run, hread, hread0]
  have hread1 : cap_read frames 1 = (some f1, 2) := by simp [cap_read, hf1]
  refine ⟨hstep fuel, ?_⟩
  rw [show fuel + 2 = (fuel + 1) + 1 from rfl, hstep (fuel + 1)]
  simp [decoder_run, hread1]

theorem c2_witness :
    decoder_run ([0, 1] : List Nat) 1 2 = decoder_run ([0, 1] : List Nat) 0 1 ∧
    (decoder_run ([0, 1] : List Nat) 2 2).head? = some 1 :=
  c2_restart_skips_first_frame ([0, 1] : List Nat) 2 0 1 (by decide) (by decide)

/-- The duration `1/fps` computed by `time.sleep(1/fps)` (src/main.py
line 35), where `fps` is the value of `cap.get(cv2.CAP_PROP_FPS)` read
once at thread start (line 23).  `VideoDecoder.run` applies no fallback
to the reported rate, and Python's `1/0.0` raises `ZeroDivisionError`,
modelled as `none`. -/
def sleep_seconds (fps : ℚ) : Option ℚ :=
  if fps = 0 then none else some (1 / fps)

/-- Claim C3 counterexample: when `cap.get(CAP_PROP_FPS)` reports 0 (the
OpenCV value when the frame rate is unavailable) no default interval is
substituted, and the per-frame sleep duration `1/fps` is not
well-defined: the division raises. -/
theorem c3_counterexample : ¬ (sleep_seconds 0).isSome := by
  simp [sleep_seconds]

/-- Claim C3 amended: `VideoDecoder.run` has no fallback for an
unavailable frame rate; the per-frame sleep duration is well-defined
exactly when the reported rate is nonzero, and then equals `1/fps` on
every iteration. -/
theorem c3_sleep_defined_iff_fps_nonzero (fps : ℚ) (h : fps ≠ 0) :
    sleep_seconds fps = some (1 / fps) := by
  simp [sleep_seconds, h]

theorem c3_witness : sleep_seconds 30 = some (1 / 30) :=
  c3_sleep_defined_iff_fps_nonzero 30 (by norm_num)

/-- The instant of the k-th (0-based) frame emission in
`VideoDecoder.run` when each read-and-emit takes `p` seconds and each
`time.sleep(1/fps)` call lasts exactly `d = 1/fps` seconds: the code
sleeps the full fixed interval after every emission (src/main.py lines
34-35), so consecutive emissions are `p + d` apart. -/
def code_emit_time (p d : ℚ) : Nat → ℚ
  | 0 => p
  | k + 1 => code_emit_time p d k + d + p

/-- Modelled from the spec: the drift-free deadline schedule the spec
describes ("compute next emission deadline from the source's native
interval; sleep only the remaining time"): each emission is due one
native interval after the previous one, so the k-th emission happens at
`p + k * d` (processing is absorbed into the wait whenever `p ≤ d`). -/
def sched_emit_time (p d : ℚ) (k : Nat) : ℚ := p + k * d

/-- Claim C8 counterexample: with processing time 1 and native interval 1
(so processing fits within the interval), the second emission of the
coded loop happens at time 3, not at its deadline 2 — the decoder does
not sleep until the next scheduled deadline. -/
theorem c8_counterexample : code_emit_time 1 1 1 ≠ sched_emit_time 1 1 1 := by
  norm_num [code_emit_time, sched_emit_time]

/-- Claim C8 amended: after each successful emission the decoder sleeps a
plain fixed delay of one full interval `1/fps`, so relative to the
deadline schedule the k-th emission lags by `k * p`: the pacing drift
accumulates linearly in the frame index instead of staying bounded. -/
theorem c8_fixed_sleep_accumulates_drift (p d : ℚ) (k : Nat) :
    code_emit_time p d k = sched_emit_time p d k + k * p := by
  induction k with
  | zero => simp [code_emit_time, sched_emit_time]
  | succ k ih =>
    simp only [code_emit_time, sched_emit_time, ih, Nat.cast_succ]
    ring

end ColumnMixer
